import Mathlib

/-!
Verification development for the everest query/aggregate core.

Shallow embedding of:
* `everest/entities/aggregates.py` — `AggregateImpl`, `MemoryAggregateImpl`,
  `OrmAggregateImpl`;
* `everest/resources/base.py` — `ResourceToEntitySpecificationVisitor` and its
  filter variant;
* the generic visitor stack discipline (the `SpecificationVisitorBase` /
  `accept` machinery lives in `everest/querying/base.py` and
  `everest/querying/specifications.py`, which are modelled from the spec).

Python mutable lists aliased between aggregate clones are modelled with an
explicit heap: a list-valued store addressed by natural-number references.
-/

set_option maxRecDepth 10000

/-- An entity as the in-memory aggregate sees it: a class tag (standing for the
Python type, so `isinstance(entity, entity_class)` becomes equality of tags),
flags recording whether the `id` / `slug` attributes are present at all
(Python `hasattr`), the attribute values themselves (`None` = `Option.none`),
and an opaque payload value that filter predicates and order comparators may
inspect. -/
structure Entity where
  cls : Nat
  hasIdA : Bool
  hasSlugA : Bool
  id : Option Nat
  slug : Option String
  val : Int
deriving DecidableEq, Repr

/-- A Python `slice(start, stop)` key with non-negative bounds, as produced by
half-open range slicing `[start, stop)`. -/
structure SliceKey where
  start : Nat
  stop : Nat
deriving DecidableEq, Repr

/-- Python list slicing `l[start:stop]` for non-negative bounds. -/
def listSlice (k : SliceKey) (l : List Entity) : List Entity :=
  (l.drop k.start).take (k.stop - k.start)

/-- Stable insertion of one entity into a sorted list, used to model Python's
`sorted` with a compiled comparator (`le e x = true` means `e` sorts no later
than `x`). -/
def insertBy (le : Entity → Entity → Bool) (e : Entity) : List Entity → List Entity
  | [] => [e]
  | x :: xs => if le e x then e :: x :: xs else x :: insertBy le e xs

/-- Modelled from the spec: the in-memory order visitor (§4.4, code in the
missing `everest/querying` evaluation module) compiles an order specification
into a sorting function over the entity sequence; we model the compiled
expression as a comparator-driven insertion sort. -/
def sortBy (le : Entity → Entity → Bool) : List Entity → List Entity
  | [] => []
  | x :: xs => insertBy le x (sortBy le xs)

/-- A heap of Python list objects: `mem r` is the list currently stored at
reference `r`, `next` is the next fresh reference. Aliased lists are equal
references. -/
structure Heap where
  mem : Nat → List Entity
  next : Nat

/-- Overwrite the list stored at reference `r` (a Python in-place mutation:
every alias of `r` observes it). -/
def Heap.write (h : Heap) (r : Nat) (l : List Entity) : Heap :=
  ⟨fun i => if i = r then l else h.mem i, h.next⟩

/-- Allocate a fresh list object holding `l`; returns its reference. -/
def Heap.alloc (h : Heap) (l : List Entity) : Nat × Heap :=
  (h.next, ⟨fun i => if i = h.next then l else h.mem i, h.next + 1⟩)

/-- A relationship scoping an aggregate to a parent entity: `childrenRef` is
the reference to the parent's child list (`relationship.children`), `spec` the
compiled relation filter specification (`relationship.specification`) used by
the ORM backend to pre-filter the base query. -/
structure Relationship where
  childrenRef : Nat
  spec : Entity → Bool

/-- State of a `MemoryAggregateImpl`: entity class tag, optional relationship,
optional filter specification (modelled by its `is_satisfied_by` predicate,
which is also what the missing EVAL filter visitor compiles it to), optional
order specification (modelled by its compiled comparator), optional slice key,
and the reference of the private `__entities` list. -/
structure MemAgg where
  entityClass : Nat
  relationship : Option Relationship
  filterSpec : Option (Entity → Bool)
  orderSpec : Option (Entity → Entity → Bool)
  sliceKey : Option SliceKey
  entitiesRef : Nat

/-- `MemoryAggregateImpl.create` / `__init__`: a fresh aggregate with no
relationship, no filter/order/slice, and a freshly allocated empty
`__entities` list. -/
def memCreate (entityClass : Nat) (h : Heap) : MemAgg × Heap :=
  let (r, h') := h.alloc []
  (⟨entityClass, none, none, none, none, r⟩, h')

/-- `AggregateImpl.clone` specialised by `MemoryAggregateImpl.clone`: create a
fresh aggregate of the same class, copy relationship, filter, order and slice,
and — only when there is no relationship — share the original's `__entities`
list by reference. -/
def memClone (a : MemAgg) (h : Heap) : MemAgg × Heap :=
  let (fresh, h') := memCreate a.entityClass h
  let c : MemAgg :=
    { fresh with
        relationship := a.relationship
        filterSpec := a.filterSpec
        orderSpec := a.orderSpec
        sliceKey := a.sliceKey }
  (if a.relationship.isNone then { c with entitiesRef := a.entitiesRef } else c, h')

/-- `MemoryAggregateImpl._get_entities`: the backing list — the private
`__entities` list without a relationship, the relationship's children list
with one. -/
def memGetEntities (a : MemAgg) (h : Heap) : List Entity :=
  match a.relationship with
  | none => h.mem a.entitiesRef
  | some r => h.mem r.childrenRef

/-- The reference `_get_entities` reads from (and `add` appends to). -/
def memTargetRef (a : MemAgg) : Nat :=
  match a.relationship with
  | none => a.entitiesRef
  | some r => r.childrenRef

/-- `MemoryAggregateImpl.__filter_by_attr`: entities whose attribute selected
by `get` equals `value`, additionally required to satisfy the filter
specification when one is set. -/
def memFilterByAttr {α : Type} [DecidableEq α] (a : MemAgg) (ents : List Entity)
    (get : Entity → α) (value : α) : List Entity :=
  match a.filterSpec with
  | none => ents.filter (fun ent => get ent = value)
  | some p => ents.filter (fun ent => get ent = value ∧ p ent = true)

/-- Outcome of a point lookup: `.error` models `DuplicateException`, `.ok none`
the absent (`None`) result, `.ok (some e)` the unique match. -/
def lookupResult (matching : List Entity) : Except String (Option Entity) :=
  match matching with
  | [e] => .ok (some e)
  | [] => .ok none
  | _ => .error "DuplicateException"

/-- `MemoryAggregateImpl.get_by_id`. -/
def memGetById (a : MemAgg) (h : Heap) (idKey : Option Nat) :
    Except String (Option Entity) :=
  lookupResult (memFilterByAttr a (memGetEntities a h) Entity.id idKey)

/-- `MemoryAggregateImpl.get_by_slug`. -/
def memGetBySlug (a : MemAgg) (h : Heap) (slug : Option String) :
    Except String (Option Entity) :=
  lookupResult (memFilterByAttr a (memGetEntities a h) Entity.slug slug)

/-- `MemoryAggregateImpl.iterator`: take the backing entities, filter with the
compiled filter expression when a filter specification is set, sort with the
compiled order expression when an order specification is set, then apply the
slice key. -/
def memIterator (a : MemAgg) (h : Heap) : List Entity :=
  let ents := memGetEntities a h
  let ents :=
    match a.filterSpec with
    | none => ents
    | some p => ents.filter p
  let ents :=
    match a.orderSpec with
    | none => ents
    | some le => sortBy le ents
  match a.sliceKey with
  | none => ents
  | some k => listSlice k ents

/-- `MemoryAggregateImpl.count`: `len(list(self.iterator()))`. -/
def memCount (a : MemAgg) (h : Heap) : Nat :=
  (memIterator a h).length

/-- `MemoryAggregateImpl.__check_existing`: is some stored entity's id or slug
equal to the candidate's? -/
def memCheckExisting (a : MemAgg) (e : Entity) (h : Heap) : Bool :=
  (memGetEntities a h).any (fun ent => ent.id = e.id || ent.slug = e.slug)

/-- `MemoryAggregateImpl.add`: validates type, attribute presence, the
id-implies-slug rule and id/slug collisions, then appends the entity in place
to the backing list. `.error` models `ValueError`. -/
def memAdd (a : MemAgg) (e : Entity) (h : Heap) : Except String Heap :=
  if e.cls ≠ a.entityClass then
    .error "ValueError: wrong entity type"
  else if !e.hasIdA then
    .error "ValueError: no id attribute"
  else if !e.hasSlugA then
    .error "ValueError: no slug attribute"
  else
    match e.id with
    | some _ =>
      if e.slug = none then
        .error "ValueError: id without slug"
      else if memCheckExisting a e h then
        .error "ValueError: duplicate id or slug"
      else
        .ok (h.write (memTargetRef a) (memGetEntities a h ++ [e]))
    | none => .ok (h.write (memTargetRef a) (memGetEntities a h ++ [e]))

/-- `MemoryAggregateImpl.remove`: `list.remove` deletes the first occurrence. -/
def memRemove (a : MemAgg) (e : Entity) (h : Heap) : Heap :=
  h.write (memTargetRef a) ((memGetEntities a h).eraseP (fun x => x = e))

/-- State of an `OrmAggregateImpl`: as the memory aggregate, plus the
`search_mode` flag; the backing store lives in the session instead of a heap
reference. The compiled SQL filter expression is modelled, as the spec's
session/store contract (§6) allows, by the predicate it denotes over entities,
and the compiled order expression by the comparator it denotes. -/
structure OrmAgg where
  entityClass : Nat
  relationship : Option Relationship
  filterSpec : Option (Entity → Bool)
  orderSpec : Option (Entity → Entity → Bool)
  sliceKey : Option SliceKey
  searchMode : Bool

/-- The ORM session, modelled per the spec's session/store contract (§6):
entities already visible to queries, and pending (added but unflushed)
entities that become visible on `flush`. -/
structure OrmSession where
  persisted : List Entity
  pending : List Entity

/-- `session.flush()`: pending writes become visible to queries; nothing is
committed. -/
def OrmSession.flush (s : OrmSession) : OrmSession :=
  ⟨s.persisted ++ s.pending, []⟩

/-- Operations the aggregate issues against the backend, recorded as a trace:
`flush` is a synchronization of pending writes, `query` an executed backend
query. -/
inductive DbOp where
  | flush
  | query
deriving DecidableEq, Repr

/-- `OrmAggregateImpl.__defaults_empty`: no filter specification set while in
search mode. -/
def ormDefaultsEmpty (a : OrmAgg) : Bool :=
  a.filterSpec.isNone && a.searchMode

/-- `OrmAggregateImpl._get_base_query`: all session entities of the aggregate's
class, pre-filtered by the relation specification when a relationship is
set. -/
def ormBaseQuery (a : OrmAgg) (s : OrmSession) : List Entity :=
  let q := s.persisted.filter (fun e => e.cls = a.entityClass)
  match a.relationship with
  | none => q
  | some r => q.filter r.spec

/-- `OrmAggregateImpl.__get_filtered_query` (the `key` argument is unused by
the identity `_query_generator`): the base query, filtered by the compiled
filter expression when a filter specification is set. -/
def ormFilteredQuery (a : OrmAgg) (s : OrmSession) : List Entity :=
  match a.filterSpec with
  | none => ormBaseQuery a s
  | some p => (ormBaseQuery a s).filter p

/-- `OrmAggregateImpl.__get_ordered_query`: the filtered query, ordered by the
compiled order expression when an order specification is set (the emitted
joins do not change the row set in this model). -/
def ormOrderedQuery (a : OrmAgg) (s : OrmSession) : List Entity :=
  match a.orderSpec with
  | none => ormFilteredQuery a s
  | some le => sortBy le (ormFilteredQuery a s)

/-- `OrmAggregateImpl._get_data_query`: the ordered query with the slice
applied as `query.slice(start, stop)`. -/
def ormDataQuery (a : OrmAgg) (s : OrmSession) : List Entity :=
  match a.sliceKey with
  | none => ormOrderedQuery a s
  | some k => listSlice k (ormOrderedQuery a s)

/-- `OrmAggregateImpl.count`: flush when a relationship is set; return 0
without querying when `__defaults_empty`, else the count of the filtered
query. The returned trace records the backend operations performed. -/
def ormCount (a : OrmAgg) (s : OrmSession) : Nat × List DbOp :=
  let s1 := if a.relationship.isSome then s.flush else s
  let ops : List DbOp := if a.relationship.isSome then [.flush] else []
  if ormDefaultsEmpty a then
    (0, ops)
  else
    ((ormFilteredQuery a s1).length, ops ++ [.query])

/-- `OrmAggregateImpl.iterator`: flush when a relationship is set; when
`__defaults_empty`, the generator body executes a bare `yield`, producing the
single value `None` — modelled as `[none]`; otherwise flush again and yield
the data query's rows. -/
def ormIterator (a : OrmAgg) (s : OrmSession) : List (Option Entity) × List DbOp :=
  let s1 := if a.relationship.isSome then s.flush else s
  let ops : List DbOp := if a.relationship.isSome then [.flush] else []
  if ormDefaultsEmpty a then
    ([none], ops)
  else
    ((ormDataQuery a s1.flush).map some, ops ++ [.flush, .query])

/-- `OrmAggregateImpl.get_by_id`: the filtered query further restricted with
`filter_by(id=id_key)`, then `one()` — `None` on `NoResultFound`,
`DuplicateException` on `MultipleResultsFound`. -/
def ormGetById (a : OrmAgg) (s : OrmSession) (idKey : Option Nat) :
    Except String (Option Entity) :=
  lookupResult ((ormFilteredQuery a s).filter (fun e => e.id = idKey))

/-- `OrmAggregateImpl.get_by_slug`: as `get_by_id`, over the `slug`
attribute. -/
def ormGetBySlug (a : OrmAgg) (s : OrmSession) (slug : Option String) :
    Except String (Option Entity) :=
  lookupResult ((ormFilteredQuery a s).filter (fun e => e.slug = slug))

/-- Operators of nullary (attribute-comparison) filter specifications; the
Python operator vocabulary of the specification factory. -/
inductive FOp where
  | eq
  | startsWith
  | endsWith
  | contains
  | containedIn
  | lt
  | le
  | gt
  | ge
  | inRange
deriving DecidableEq, Repr

/-- Binary specification operators: conjunction and disjunction. -/
inductive BOp where
  | conj
  | disj
deriving DecidableEq, Repr

/-- A specification tree. Well-formedness (nullary nodes childless, unary
nodes with one child, binary nodes with two) is built into the constructors,
matching the fixed arity of the Python specification classes. The single
unary operator is negation, so the unary node carries no operator tag. -/
inductive Spec where
  | nullary (op : FOp) (attrName : String) (value : Int)
  | unary (child : Spec)
  | binary (op : BOp) (left : Spec) (right : Spec)
deriving DecidableEq, Repr

/-- Modelled from the spec: the generic visitor of §4.2 (its code,
`SpecificationVisitorBase` in `everest/querying/base.py` and the `accept`
methods in `everest/querying/specifications.py`, is not part of the core
sources). A concrete visitor supplies one action per node arity: the nullary
action computes a value from the leaf's data, the unary action from one popped
value, and the binary action from two popped values (left and right child
results). -/
structure VisitorAlg (α : Type) where
  nullary : FOp → String → Int → α
  unary : α → α
  binary : BOp → α → α → α

/-- Modelled from the spec: `_pop` of the visitor's internal stack; `none`
models popping an empty stack (an `IndexError` in Python). -/
def stackPop {α : Type} (st : List α) : Option (α × List α) :=
  match st with
  | [] => none
  | x :: xs => some (x, xs)

/-- Modelled from the spec: `accept`'s post-order traversal driving the stack
discipline of §4.2 — children are visited before their parent; a nullary visit
pushes one value; a unary visit pops one and pushes one; a binary visit pops
two (right then left) and pushes one. -/
def specAccept {α : Type} (v : VisitorAlg α) : Spec → List α → Option (List α)
  | .nullary op name val, st => some (v.nullary op name val :: st)
  | .unary c, st => do
      let st1 ← specAccept v c st
      let (x, rest) ← stackPop st1
      some (v.unary x :: rest)
  | .binary op l r, st => do
      let st1 ← specAccept v l st
      let st2 ← specAccept v r st1
      let (x, rest1) ← stackPop st2
      let (y, rest2) ← stackPop rest1
      some (v.binary op y x :: rest2)

/-- The structural (bottom-up) evaluation of a specification tree under a
visitor algebra: the value the traversal is expected to leave on the stack. -/
def specEval {α : Type} (v : VisitorAlg α) : Spec → α
  | .nullary op name val => v.nullary op name val
  | .unary c => v.unary (specEval v c)
  | .binary op l r => v.binary op (specEval v l) (specEval v r)

/-- `ResourceAttributeKinds`: terminal, member-resource or
collection-resource attribute. -/
inductive RcKind where
  | terminal
  | member
  | collection
deriving DecidableEq, Repr

/-- A resource-attribute descriptor: its kind, the entity-side attribute name,
and (for non-terminal kinds) the member resource class reached by descending —
the result of `get_member_class(rc_attr.value_type)`, with resource classes
identified by tags. -/
structure RcAttr where
  kind : RcKind
  entityName : String
  target : Nat
deriving DecidableEq, Repr

/-- The resource-attribute metadata registry:
`get_resource_class_attributes(rc_class)[token]`, `none` when the token is not
a declared attribute of the class (a `KeyError` in Python). -/
def RcMeta : Type := Nat → String → Option RcAttr

/-- Token-by-token core of
`ResourceToEntitySpecificationVisitor.__convert_to_entity_attr`: walk the
tokens, looking each one up on the current resource class; append the
descriptor's entity-side name; advance the current class only for
non-terminal kinds. Errors when a token is not found. -/
def convertTokens (meta : RcMeta) (rcClass : Nat) : List String → Except String (List String)
  | [] => .ok []
  | t :: ts =>
    match meta rcClass t with
    | none => .error t
    | some d =>
      (convertTokens meta
          (if d.kind = RcKind.terminal then rcClass else d.target) ts).bind
        (fun rest => .ok (d.entityName :: rest))

/-- Executable model of Python `str.split('.')` at the character level:
splitting an empty string gives one empty token, and each `'.'` starts a new
token. -/
def splitOnDot : List Char → List (List Char)
  | [] => [[]]
  | c :: rest =>
    let r := splitOnDot rest
    if c = '.' then [] :: r
    else
      match r with
      | [] => [[c]]
      | h :: t => (c :: h) :: t

/-- Python `rc_attr_name.split('.')` over strings. -/
def splitDot (s : String) : List String :=
  (splitOnDot s.toList).map String.mk

/-- Executable model of Python `'.'.join` at the character level. -/
def joinDotChars : List (List Char) → List Char
  | [] => []
  | [l] => l
  | l :: ls => l ++ '.' :: joinDotChars ls

/-- Python `'.'.join(entity_attr_tokens)` over strings. -/
def joinDot (ls : List String) : String :=
  String.mk (joinDotChars (ls.map String.toList))

/-- `__convert_to_entity_attr`: split the dotted resource path, translate the
tokens, re-join with `.`. -/
def convertToEntityAttr (meta : RcMeta) (rcClass : Nat) (rcAttrName : String) :
    Except String String :=
  (convertTokens meta rcClass (splitDot rcAttrName)).map joinDot

/-- The per-node actions of `ResourceToEntityFilterSpecificationVisitor`:
`visit_nullary` rebuilds the leaf with the translated attribute name and the
same operator class and comparison value; `visit_unary` and `visit_binary`
rebuild the node with the same operator class over the translated children.
Translation failure is propagated as the exception Python raises mid-
traversal. -/
def rteAlg (meta : RcMeta) (rcClass : Nat) : VisitorAlg (Except String Spec) where
  nullary op name val :=
    (convertToEntityAttr meta rcClass name).map (fun n => .nullary op n val)
  unary x := x.map .unary
  binary op l r := do
    let ls ← l
    let rs ← r
    pure (.binary op ls rs)

/-- The full resource→entity translation of a specification tree: run the
translating visitor over the tree and read its single stacked expression. -/
def translateSpec (meta : RcMeta) (rcClass : Nat) (s : Spec) : Except String Spec :=
  match specAccept (rteAlg meta rcClass) s [] with
  | some [r] => r
  | _ => .error "stack discipline violated"

/-- The dotted attribute names at the leaves of a specification tree, left to
right. -/
def leafNames : Spec → List String
  | .nullary _ name _ => [name]
  | .unary c => leafNames c
  | .binary _ l r => leafNames l ++ leafNames r

/-- The shape of a specification tree with attribute names erased: node
structure, operators and comparison values only. -/
def eraseNames : Spec → Spec
  | .nullary op _ v => .nullary op "" v
  | .unary c => .unary (eraseNames c)
  | .binary op l r => .binary op (eraseNames l) (eraseNames r)

/-! ## Helper lemmas -/

theorem specAccept_eq {α : Type} (v : VisitorAlg α) :
    ∀ (s : Spec) (st : List α), specAccept v s st = some (specEval v s :: st) := by
  intro s
  induction s with
  | nullary op name val => intro st; rfl
  | unary c ih =>
      intro st
      simp [specAccept, ih, stackPop, specEval]
  | binary op l r ihl ihr =>
      intro st
      simp [specAccept, ihl, ihr, stackPop, specEval]

theorem length_insertBy (le : Entity → Entity → Bool) (e : Entity) :
    ∀ l : List Entity, (insertBy le e l).length = l.length + 1 := by
  intro l
  induction l with
  | nil => rfl
  | cons x xs ih =>
      by_cases hc : le e x = true
      · simp [insertBy, hc]
      · simp [insertBy, hc, ih]

theorem length_sortBy (le : Entity → Entity → Bool) :
    ∀ l : List Entity, (sortBy le l).length = l.length := by
  intro l
  induction l with
  | nil => rfl
  | cons x xs ih => simp [sortBy, length_insertBy, ih]

theorem length_listSlice (k : SliceKey) (l : List Entity) :
    (listSlice k l).length = min (k.stop - k.start) (l.length - k.start) := by
  simp [listSlice]

theorem memGetEntities_target (a : MemAgg) (h : Heap) :
    memGetEntities a h = h.mem (memTargetRef a) := by
  cases hr : a.relationship <;> simp [memGetEntities, memTargetRef, hr]

theorem Heap.mem_write_self (h : Heap) (r : Nat) (l : List Entity) :
    (h.write r l).mem r = l := by
  simp [Heap.write]

theorem memAdd_ok_heap (a : MemAgg) (e : Entity) (h h' : Heap)
    (hk : memAdd a e h = .ok h') :
    h' = h.write (memTargetRef a) (memGetEntities a h ++ [e]) := by
  unfold memAdd at hk
  split at hk
  · exact absurd hk (by simp)
  · split at hk
    · exact absurd hk (by simp)
    · split at hk
      · exact absurd hk (by simp)
      · split at hk
        · split at hk
          · exact absurd hk (by simp)
          · split at hk
            · exact absurd hk (by simp)
            · exact (Except.ok.injEq _ _ ▸ hk).symm ▸ rfl
        · exact (Except.ok.injEq _ _ ▸ hk).symm ▸ rfl

theorem translateSpec_eval (meta : RcMeta) (rc : Nat) (s : Spec) :
    translateSpec meta rc s = specEval (rteAlg meta rc) s := by
  unfold translateSpec
  rw [specAccept_eq]

theorem exceptBind_ok {ε α β : Type} (a : α) (f : α → Except ε β) :
    (Except.ok a : Except ε α).bind f = f a := rfl

theorem exceptBind_err {ε α β : Type} (m : ε) (f : α → Except ε β) :
    (Except.error m : Except ε α).bind f = .error m := rfl

theorem exceptMap_ok {ε α β : Type} (a : α) (f : α → β) :
    Except.map f (Except.ok a : Except ε α) = .ok (f a) := rfl

theorem exceptMap_err {ε α β : Type} (m : ε) (f : α → β) :
    Except.map f (Except.error m : Except ε α) = .error m := rfl

theorem rte_nullary_eq (meta : RcMeta) (rc : Nat) (op : FOp) (name : String)
    (val : Int) :
    specEval (rteAlg meta rc) (.nullary op name val) =
      (convertToEntityAttr meta rc name).map (fun n => .nullary op n val) := rfl

theorem rte_unary_eq (meta : RcMeta) (rc : Nat) (c : Spec) :
    specEval (rteAlg meta rc) (.unary c) =
      (specEval (rteAlg meta rc) c).map .unary := rfl

theorem rte_binary_eq (meta : RcMeta) (rc : Nat) (op : BOp) (l r : Spec) :
    specEval (rteAlg meta rc) (.binary op l r) =
      (specEval (rteAlg meta rc) l).bind
        (fun ls => (specEval (rteAlg meta rc) r).bind
          (fun rs => .ok (.binary op ls rs))) := rfl

/-- Leaf-by-leaf attribute-name translation of a list of dotted resource
paths, failing as soon as one path fails to translate. -/
def convertAll (meta : RcMeta) (rc : Nat) : List String → Except String (List String)
  | [] => .ok []
  | n :: ns =>
    (convertToEntityAttr meta rc n).bind
      (fun n' => (convertAll meta rc ns).bind
        (fun rest => .ok (n' :: rest)))

theorem convertAll_append (meta : RcMeta) (rc : Nat) :
    ∀ xs ys : List String,
      convertAll meta rc (xs ++ ys) =
        (convertAll meta rc xs).bind
          (fun a => (convertAll meta rc ys).bind (fun b => .ok (a ++ b))) := by
  intro xs
  induction xs with
  | nil =>
      intro ys
      cases hc : convertAll meta rc ys <;>
        simp [convertAll, exceptBind_ok, exceptBind_err, hc]
  | cons x xs ih =>
      intro ys
      simp only [List.cons_append, convertAll, List.append_eq]
      rw [ih ys]
      cases hx : convertToEntityAttr meta rc x <;>
        simp only [exceptBind_ok, exceptBind_err]
      cases ha : convertAll meta rc xs <;>
        cases hy : convertAll meta rc ys <;>
          simp [exceptBind_ok, exceptBind_err, ha, hy]

theorem specEval_rte_shape (meta : RcMeta) (rc : Nat) :
    ∀ (s t : Spec), specEval (rteAlg meta rc) s = .ok t →
      eraseNames t = eraseNames s ∧
        convertAll meta rc (leafNames s) = .ok (leafNames t) := by
  intro s
  induction s with
  | nullary op name val =>
      intro t ht
      rw [rte_nullary_eq] at ht
      cases hc : convertToEntityAttr meta rc name with
      | error m => rw [hc, exceptMap_err] at ht; exact absurd ht (by simp)
      | ok n' =>
          rw [hc, exceptMap_ok] at ht
          cases ht
          refine ⟨rfl, ?_⟩
          simp [convertAll, leafNames, hc, exceptBind_ok]
  | unary c ih =>
      intro t ht
      rw [rte_unary_eq] at ht
      cases hc : specEval (rteAlg meta rc) c with
      | error m => rw [hc, exceptMap_err] at ht; exact absurd ht (by simp)
      | ok ct =>
          rw [hc, exceptMap_ok] at ht
          cases ht
          obtain ⟨h1, h2⟩ := ih ct hc
          exact ⟨by simp [eraseNames, h1], by simp [leafNames, h2]⟩
  | binary op l r ihl ihr =>
      intro t ht
      rw [rte_binary_eq] at ht
      cases hl : specEval (rteAlg meta rc) l with
      | error m => rw [hl, exceptBind_err] at ht; exact absurd ht (by simp)
      | ok lt =>
          cases hr : specEval (rteAlg meta rc) r with
          | error m =>
              rw [hl, exceptBind_ok, hr, exceptBind_err] at ht
              exact absurd ht (by simp)
          | ok rt =>
              rw [hl, exceptBind_ok, hr, exceptBind_ok] at ht
              cases ht
              obtain ⟨hl1, hl2⟩ := ihl lt hl
              obtain ⟨hr1, hr2⟩ := ihr rt hr
              refine ⟨by simp [eraseNames, hl1, hr1], ?_⟩
              simp [leafNames, convertAll_append, hl2, hr2, exceptBind_ok]

/-- C7: when the resource-to-entity translation succeeds on a specification
tree, the output tree has the same shape, the same operator at every node and
the same comparison value at every leaf (equal name-erased trees), and its
leaf attribute names are exactly the input's leaf names translated one by one
through the resource-attribute metadata (token-by-token, re-joined with
`.`). -/
theorem c7_translation_shape_and_leaves (meta : RcMeta) (rc : Nat) (s t : Spec)
    (h : translateSpec meta rc s = .ok t) :
    eraseNames t = eraseNames s ∧
      convertAll meta rc (leafNames s) = .ok (leafNames t) := by
  rw [translateSpec_eval] at h
  exact specEval_rte_shape meta rc s t h

/-- C8: for every visitor algebra and every (arity-correct by construction)
specification tree, a full post-order traversal under the stack discipline —
nullary pushes one value, unary pops one and pushes one, binary pops two
(right then left) and pushes one, children visited before their parent —
leaves exactly one value on the visitor's internal stack: the tree's
bottom-up evaluation, which becomes the visitor's expression. -/
theorem c8_visitor_stack_discipline {α : Type} (v : VisitorAlg α) (s : Spec) :
    specAccept v s [] = some [specEval v s] :=
  specAccept_eq v s []

/-- The attribute-path walk over a token list succeeds: every token is found
in the metadata of the resource class current at that token, where the
current class advances only past non-terminal tokens. -/
def walkOk (meta : RcMeta) : Nat → List String → Prop
  | _, [] => True
  | rc, t :: ts =>
    ∃ d, meta rc t = some d ∧
      walkOk meta (if d.kind = RcKind.terminal then rc else d.target) ts

theorem convertTokens_ok_iff (meta : RcMeta) :
    ∀ (ts : List String) (rc : Nat),
      (∃ out, convertTokens meta rc ts = .ok out) ↔ walkOk meta rc ts := by
  intro ts
  induction ts with
  | nil => intro rc; simp [convertTokens, walkOk]
  | cons t ts ih =>
      intro rc
      cases hm : meta rc t with
      | none => simp [convertTokens, hm, walkOk]
      | some d =>
          simp only [convertTokens, hm, walkOk]
          constructor
          · rintro ⟨out, hout⟩
            cases hrec : convertTokens meta
                (if d.kind = RcKind.terminal then rc else d.target) ts with
            | error m =>
                rw [hrec, exceptBind_err] at hout
                exact absurd hout (by simp)
            | ok rest =>
                exact ⟨d, rfl, (ih _).mp ⟨rest, hrec⟩⟩
          · rintro ⟨d', hd', hw⟩
            cases hd'
            obtain ⟨rest, hrest⟩ := (ih _).mpr hw
            exact ⟨d.entityName :: rest, by rw [hrest, exceptBind_ok]⟩

theorem except_error_iff {ε α : Type} (x : Except ε α) :
    (∃ m, x = .error m) ↔ ¬∃ o, x = .ok o := by
  cases x <;> simp

theorem convertToEntityAttr_error_iff (meta : RcMeta) (rc : Nat) (name : String) :
    (∃ msg, convertToEntityAttr meta rc name = .error msg) ↔
      ¬walkOk meta rc (splitDot name) := by
  rw [← convertTokens_ok_iff meta (splitDot name) rc]
  unfold convertToEntityAttr
  cases hc : convertTokens meta rc (splitDot name) <;>
    simp [exceptMap_err, exceptMap_ok, hc, Except.map]

theorem specEval_rte_error_iff (meta : RcMeta) (rc : Nat) :
    ∀ s : Spec,
      (∃ msg, specEval (rteAlg meta rc) s = .error msg) ↔
        ∃ n ∈ leafNames s, ∃ msg, convertToEntityAttr meta rc n = .error msg := by
  intro s
  induction s with
  | nullary op name val =>
      rw [rte_nullary_eq]
      cases hc : convertToEntityAttr meta rc name <;>
        simp [exceptMap_err, exceptMap_ok, leafNames, hc]
  | unary c ih =>
      rw [rte_unary_eq]
      cases hc : specEval (rteAlg meta rc) c with
      | error m =>
          simp only [exceptMap_err, leafNames]
          rw [← ih]
          simp [hc]
      | ok ct =>
          simp only [exceptMap_ok, leafNames]
          rw [← ih]
          simp [hc]
  | binary op l r ihl ihr =>
      rw [rte_binary_eq]
      cases hl : specEval (rteAlg meta rc) l with
      | error m =>
          simp only [exceptBind_err, leafNames, List.mem_append]
          constructor
          · intro _
            obtain ⟨n, hn, hmsg⟩ := ihl.mp ⟨m, hl⟩
            exact ⟨n, Or.inl hn, hmsg⟩
          · intro _; exact ⟨m, rfl⟩
      | ok lt =>
          cases hr : specEval (rteAlg meta rc) r with
          | error m =>
              simp only [exceptBind_ok, exceptBind_err, leafNames, List.mem_append]
              constructor
              · intro _
                obtain ⟨n, hn, hmsg⟩ := ihr.mp ⟨m, hr⟩
                exact ⟨n, Or.inr hn, hmsg⟩
              · intro _; exact ⟨m, rfl⟩
          | ok rt =>
              simp only [exceptBind_ok, leafNames, List.mem_append]
              constructor
              · rintro ⟨m, hm⟩; exact absurd hm (by simp)
              · rintro ⟨n, hn | hn, hmsg⟩
                · obtain ⟨m, hm⟩ := ihl.mpr ⟨n, hn, hmsg⟩
                  rw [hm] at hl; exact absurd hl (by simp)
                · obtain ⟨m, hm⟩ := ihr.mpr ⟨n, hn, hmsg⟩
                  rw [hm] at hr; exact absurd hr (by simp)

/-- C6 amended: the resource-to-entity translation raises an
attribute-resolution error exactly when some dotted-path token of a leaf's
`attr_name` is not found in the attribute metadata of the resource class
current at that token — where the current class advances only past
non-terminal tokens. There is no separate rejection of tokens following a
terminal-kind token: such a token is looked up in the unchanged current class
and translation succeeds when that lookup succeeds. The error arises during
the pure translation, before any backend query. -/
theorem c6_attr_resolution_error_iff (meta : RcMeta) (rc : Nat) :
    (∀ name, (∃ msg, convertToEntityAttr meta rc name = .error msg) ↔
        ¬walkOk meta rc (splitDot name)) ∧
    (∀ s : Spec, (∃ msg, translateSpec meta rc s = .error msg) ↔
        ∃ n ∈ leafNames s, ¬walkOk meta rc (splitDot n)) := by
  refine ⟨fun name => convertToEntityAttr_error_iff meta rc name, fun s => ?_⟩
  have h1 := specEval_rte_error_iff meta rc s
  rw [translateSpec_eval]
  rw [h1]
  constructor
  · rintro ⟨n, hn, hmsg⟩
    exact ⟨n, hn, (convertToEntityAttr_error_iff meta rc n).mp hmsg⟩
  · rintro ⟨n, hn, hw⟩
    exact ⟨n, hn, (convertToEntityAttr_error_iff meta rc n).mpr hw⟩

/-- Concrete metadata for the terminal-token scenario: resource class 0
declares two terminal attributes `a` (entity name `x`) and `b` (entity name
`y`). -/
def metaC6 : RcMeta := fun c t =>
  if c = 0 then
    if t = "a" then some ⟨RcKind.terminal, "x", 0⟩
    else if t = "b" then some ⟨RcKind.terminal, "y", 0⟩
    else none
  else none

/-- C6 counterexample: in `metaC6` the leaf path `a.b` has the terminal-kind
token `a` followed by the further token `b`, yet translation succeeds (to
`x.y`) instead of raising an attribute-resolution error — the code only
errors when a token lookup fails, and after a terminal token it keeps looking
tokens up in the unchanged resource class. -/
theorem c6_terminal_followed_counterexample :
    (metaC6 0 "a").map RcAttr.kind = some RcKind.terminal ∧
    splitDot "a.b" = ["a", "b"] ∧
    convertToEntityAttr metaC6 0 "a.b" = .ok "x.y" ∧
    ¬∃ msg, convertToEntityAttr metaC6 0 "a.b" = .error msg := by
  refine ⟨rfl, rfl, rfl, ?_⟩
  rintro ⟨msg, hmsg⟩
  rw [show convertToEntityAttr metaC6 0 "a.b" = .ok "x.y" from rfl] at hmsg
  exact absurd hmsg (by simp)

/-- Concrete metadata for the witnesses: resource class 0 declares a member
attribute `a` (entity name `ea`, descending to class 1) and a terminal
attribute `n` (entity name `en`); class 1 declares a terminal attribute `b`
(entity name `eb`). -/
def metaW : RcMeta := fun c t =>
  if c = 0 then
    if t = "a" then some ⟨RcKind.member, "ea", 1⟩
    else if t = "n" then some ⟨RcKind.terminal, "en", 0⟩
    else none
  else if c = 1 then
    if t = "b" then some ⟨RcKind.terminal, "eb", 1⟩
    else none
  else none

/-- A concrete specification tree over resource paths: `(a.b = 5) AND NOT
(n < 3)`. -/
def specW : Spec :=
  .binary .conj (.nullary .eq "a.b" 5) (.unary (.nullary .lt "n" 3))

/-- Its entity-relative translation under `metaW`. -/
def specWT : Spec :=
  .binary .conj (.nullary .eq "ea.eb" 5) (.unary (.nullary .lt "en" 3))

theorem c7_translation_shape_witness :
    translateSpec metaW 0 specW = .ok specWT ∧
      (eraseNames specWT = eraseNames specW ∧
        convertAll metaW 0 (leafNames specW) = .ok (leafNames specWT)) :=
  ⟨rfl, c7_translation_shape_and_leaves metaW 0 specW specWT rfl⟩

theorem lookupResult_nil : lookupResult [] = .ok none := rfl

theorem lookupResult_single (e : Entity) : lookupResult [e] = .ok (some e) := rfl

theorem lookupResult_dup (l : List Entity) (hl : 2 ≤ l.length) :
    lookupResult l = .error "DuplicateException" := by
  match l, hl with
  | e :: f :: rest, _ => rfl

theorem lookupResult_ok_some (l : List Entity) (e : Entity)
    (h : lookupResult l = .ok (some e)) : l = [e] := by
  match l, h with
  | [x], h => cases h; rfl

/-- C1: point lookups follow the duplicate/absent/unique trichotomy. For a
memory aggregate (with no filter specification narrowing the view, so that
"stored entity" and "considered entity" coincide) and any id value:
`get_by_id` returns the absent result when no stored entity has that id,
returns the unique match when exactly one does, and raises the duplicate
error when two or more do; the same holds for `get_by_slug` over slug values,
and for the ORM aggregate over its session's entities of the bound class. -/
theorem c1_lookup_trichotomy :
    (∀ (a : MemAgg) (h : Heap) (key : Option Nat), a.filterSpec = none →
      ((memGetEntities a h).filter (fun e => e.id = key) = [] →
          memGetById a h key = .ok none) ∧
      (∀ e, (memGetEntities a h).filter (fun e => e.id = key) = [e] →
          memGetById a h key = .ok (some e)) ∧
      (2 ≤ ((memGetEntities a h).filter (fun e => e.id = key)).length →
          memGetById a h key = .error "DuplicateException")) ∧
    (∀ (a : MemAgg) (h : Heap) (key : Option String), a.filterSpec = none →
      ((memGetEntities a h).filter (fun e => e.slug = key) = [] →
          memGetBySlug a h key = .ok none) ∧
      (∀ e, (memGetEntities a h).filter (fun e => e.slug = key) = [e] →
          memGetBySlug a h key = .ok (some e)) ∧
      (2 ≤ ((memGetEntities a h).filter (fun e => e.slug = key)).length →
          memGetBySlug a h key = .error "DuplicateException")) ∧
    (∀ (a : OrmAgg) (s : OrmSession) (key : Option Nat),
        a.filterSpec = none → a.relationship = none →
      (((s.persisted.filter (fun e => e.cls = a.entityClass)).filter
            (fun e => e.id = key)) = [] →
          ormGetById a s key = .ok none) ∧
      (∀ e, ((s.persisted.filter (fun e => e.cls = a.entityClass)).filter
            (fun e => e.id = key)) = [e] →
          ormGetById a s key = .ok (some e)) ∧
      (2 ≤ ((s.persisted.filter (fun e => e.cls = a.entityClass)).filter
            (fun e => e.id = key)).length →
          ormGetById a s key = .error "DuplicateException")) ∧
    (∀ (a : OrmAgg) (s : OrmSession) (key : Option String),
        a.filterSpec = none → a.relationship = none →
      (((s.persisted.filter (fun e => e.cls = a.entityClass)).filter
            (fun e => e.slug = key)) = [] →
          ormGetBySlug a s key = .ok none) ∧
      (∀ e, ((s.persisted.filter (fun e => e.cls = a.entityClass)).filter
            (fun e => e.slug = key)) = [e] →
          ormGetBySlug a s key = .ok (some e)) ∧
      (2 ≤ ((s.persisted.filter (fun e => e.cls = a.entityClass)).filter
            (fun e => e.slug = key)).length →
          ormGetBySlug a s key = .error "DuplicateException")) := by
  refine ⟨?_, ?_, ?_, ?_⟩
  · intro a h key hf
    have he : memGetById a h key =
        lookupResult ((memGetEntities a h).filter (fun e => e.id = key)) := by
      simp [memGetById, memFilterByAttr, hf]
    refine ⟨fun h0 => ?_, fun e h1 => ?_, fun h2 => ?_⟩
    · rw [he, h0]; rfl
    · rw [he, h1]; rfl
    · rw [he]; exact lookupResult_dup _ h2
  · intro a h key hf
    have he : memGetBySlug a h key =
        lookupResult ((memGetEntities a h).filter (fun e => e.slug = key)) := by
      simp [memGetBySlug, memFilterByAttr, hf]
    refine ⟨fun h0 => ?_, fun e h1 => ?_, fun h2 => ?_⟩
    · rw [he, h0]; rfl
    · rw [he, h1]; rfl
    · rw [he]; exact lookupResult_dup _ h2
  · intro a s key hf hr
    have he : ormGetById a s key =
        lookupResult ((s.persisted.filter (fun e => e.cls = a.entityClass)).filter
          (fun e => e.id = key)) := by
      simp [ormGetById, ormFilteredQuery, ormBaseQuery, hf, hr]
    refine ⟨fun h0 => ?_, fun e h1 => ?_, fun h2 => ?_⟩
    · rw [he, h0]; rfl
    · rw [he, h1]; rfl
    · rw [he]; exact lookupResult_dup _ h2
  · intro a s key hf hr
    have he : ormGetBySlug a s key =
        lookupResult ((s.persisted.filter (fun e => e.cls = a.entityClass)).filter
          (fun e => e.slug = key)) := by
      simp [ormGetBySlug, ormFilteredQuery, ormBaseQuery, hf, hr]
    refine ⟨fun h0 => ?_, fun e h1 => ?_, fun h2 => ?_⟩
    · rw [he, h0]; rfl
    · rw [he, h1]; rfl
    · rw [he]; exact lookupResult_dup _ h2

/-- Concrete entities for the witnesses: `entA` and `entB` share id 1 with
different slugs; `entC` has id 2. -/
def entA : Entity := ⟨0, true, true, some 1, some "s1", 0⟩

def entB : Entity := ⟨0, true, true, some 1, some "s2", 1⟩

def entC : Entity := ⟨0, true, true, some 2, some "s3", 2⟩

/-- A heap whose list object 0 holds the three witness entities. -/
def heap0 : Heap := ⟨fun r => if r = 0 then [entA, entB, entC] else [], 1⟩

/-- A memory aggregate over class 0 with no relationship, filter, order or
slice, backed by list object 0. -/
def agg0 : MemAgg := ⟨0, none, none, none, none, 0⟩

theorem c1_lookup_trichotomy_witness :
    2 ≤ ((memGetEntities agg0 heap0).filter (fun e => e.id = some 1)).length ∧
      memGetById agg0 heap0 (some 1) = .error "DuplicateException" :=
  ⟨by decide, (c1_lookup_trichotomy.1 agg0 heap0 (some 1) rfl).2.2 (by decide)⟩

/-- C10: with a filter specification set, the memory point lookups consider
only entities that satisfy it — an entity matching the key but excluded by
the filter is never returned and does not count toward the
duplicate-detection threshold; with no filter set all stored entities are
considered. -/
theorem c10_lookup_respects_filter :
    (∀ (a : MemAgg) (h : Heap) (key : Option Nat) (p : Entity → Bool),
        a.filterSpec = some p →
      (∀ e, memGetById a h key = .ok (some e) → p e = true) ∧
      (∀ e, (memGetEntities a h).filter (fun x => x.id = key ∧ p x = true) = [e] →
          memGetById a h key = .ok (some e)) ∧
      (2 ≤ ((memGetEntities a h).filter
            (fun x => x.id = key ∧ p x = true)).length →
          memGetById a h key = .error "DuplicateException") ∧
      ((memGetEntities a h).filter (fun x => x.id = key ∧ p x = true) = [] →
          memGetById a h key = .ok none)) ∧
    (∀ (a : MemAgg) (h : Heap) (key : Option String) (p : Entity → Bool),
        a.filterSpec = some p →
      (∀ e, memGetBySlug a h key = .ok (some e) → p e = true) ∧
      (∀ e, (memGetEntities a h).filter (fun x => x.slug = key ∧ p x = true) = [e] →
          memGetBySlug a h key = .ok (some e)) ∧
      (2 ≤ ((memGetEntities a h).filter
            (fun x => x.slug = key ∧ p x = true)).length →
          memGetBySlug a h key = .error "DuplicateException") ∧
      ((memGetEntities a h).filter (fun x => x.slug = key ∧ p x = true) = [] →
          memGetBySlug a h key = .ok none)) ∧
    (∀ (a : MemAgg) (h : Heap) (key : Option Nat), a.filterSpec = none →
        memGetById a h key =
          lookupResult ((memGetEntities a h).filter (fun x => x.id = key))) ∧
    (∀ (a : MemAgg) (h : Heap) (key : Option String), a.filterSpec = none →
        memGetBySlug a h key =
          lookupResult ((memGetEntities a h).filter (fun x => x.slug = key))) := by
  refine ⟨?_, ?_, ?_, ?_⟩
  · intro a h key p hp
    have he : memGetById a h key =
        lookupResult ((memGetEntities a h).filter
          (fun x => x.id = key ∧ p x = true)) := by
      simp [memGetById, memFilterByAttr, hp]
    refine ⟨fun e hok => ?_, fun e h1 => ?_, fun h2 => ?_, fun h0 => ?_⟩
    · rw [he] at hok
      have hm := lookupResult_ok_some _ _ hok
      have : e ∈ (memGetEntities a h).filter
          (fun x => x.id = key ∧ p x = true) := by rw [hm]; exact List.mem_singleton_self e
      have := List.of_mem_filter this
      simp at this
      exact this.2
    · rw [he, h1]; rfl
    · rw [he]; exact lookupResult_dup _ h2
    · rw [he, h0]; rfl
  · intro a h key p hp
    have he : memGetBySlug a h key =
        lookupResult ((memGetEntities a h).filter
          (fun x => x.slug = key ∧ p x = true)) := by
      simp [memGetBySlug, memFilterByAttr, hp]
    refine ⟨fun e hok => ?_, fun e h1 => ?_, fun h2 => ?_, fun h0 => ?_⟩
    · rw [he] at hok
      have hm := lookupResult_ok_some _ _ hok
      have : e ∈ (memGetEntities a h).filter
          (fun x => x.slug = key ∧ p x = true) := by rw [hm]; exact List.mem_singleton_self e
      have := List.of_mem_filter this
      simp at this
      exact this.2
    · rw [he, h1]; rfl
    · rw [he]; exact lookupResult_dup _ h2
    · rw [he, h0]; rfl
  · intro a h key hf
    simp [memGetById, memFilterByAttr, hf]
  · intro a h key hf
    simp [memGetBySlug, memFilterByAttr, hf]

/-- The witness filter predicate: satisfied only by entities with slug
`s1`. -/
def pSlug1 : Entity → Bool := fun e => decide (e.slug = some "s1")

/-- The witness aggregate with a filter specification set. -/
def aggF : MemAgg := ⟨0, none, some pSlug1, none, none, 0⟩

theorem c10_lookup_respects_filter_witness :
    (memGetEntities aggF heap0).filter
        (fun x => x.id = some 1 ∧ pSlug1 x = true) = [entA] ∧
      memGetById aggF heap0 (some 1) = .ok (some entA) :=
  ⟨by decide,
   ((c10_lookup_respects_filter.1 aggF heap0 (some 1) pSlug1 rfl).2.1 entA (by decide))⟩

/-- The witness aggregate with a slice key `[0, 1)` set and no filter. -/
def aggS : MemAgg := ⟨0, none, none, none, some ⟨0, 1⟩, 0⟩

/-- C2 counterexample: for a memory aggregate with slice `[0, 1)` over three
stored entities and no filter, `count()` returns 1 — the length of the sliced
iterator output — not the cardinality 3 of the filtered result set, so the
slice does affect the value returned by the memory backend's `count()`. -/
theorem c2_count_slice_counterexample :
    aggS.filterSpec = none ∧
    memCount aggS heap0 = 1 ∧
    (memGetEntities aggS heap0).length = 3 ∧
    memCount aggS heap0 ≠ (memGetEntities aggS heap0).length := by
  refine ⟨rfl, by decide, by decide, by decide⟩

/-- C2 amended: the ORM aggregate's `count()` is unaffected by the order and
slice settings and (outside the search-mode short-circuit) returns the
cardinality of the filtered result set; the memory aggregate's `count()` is
the length of its `iterator()` output — unaffected by the order, but it does
reflect the slice. -/
theorem c2_count_amended :
    (∀ (a : OrmAgg) (s : OrmSession) (o : Option (Entity → Entity → Bool))
        (k : Option SliceKey),
      (ormCount { a with orderSpec := o, sliceKey := k } s).1 = (ormCount a s).1) ∧
    (∀ (a : OrmAgg) (s : OrmSession), ormDefaultsEmpty a = false →
      (ormCount a s).1 =
        (ormFilteredQuery a (if a.relationship.isSome then s.flush else s)).length) ∧
    (∀ (a : MemAgg) (h : Heap), memCount a h = (memIterator a h).length) ∧
    (∀ (a : MemAgg) (h : Heap) (o : Option (Entity → Entity → Bool)),
      memCount { a with orderSpec := o } h = memCount a h) := by
  refine ⟨fun a s o k => rfl, fun a s hd => ?_, fun a h => rfl, fun a h o => ?_⟩
  · simp [ormCount, hd]
  · unfold memCount memIterator
    have hge : memGetEntities { a with orderSpec := o } h = memGetEntities a h := rfl
    rw [hge]
    cases hf : a.filterSpec <;> cases o <;> cases hoa : a.orderSpec <;>
      cases hk : a.sliceKey <;>
        simp [length_sortBy, listSlice, List.length_take, List.length_drop]

/-- The witness ORM aggregate: class 0, no relationship or filter, search
mode off. -/
def ormAgg0 : OrmAgg := ⟨0, none, none, none, none, false⟩

/-- The witness session: three persisted entities, nothing pending. -/
def sess0 : OrmSession := ⟨[entA, entB, entC], []⟩

theorem c2_count_amended_witness :
    (ormCount ormAgg0 sess0).1 =
      (ormFilteredQuery ormAgg0
        (if ormAgg0.relationship.isSome then sess0.flush else sess0)).length :=
  c2_count_amended.2.1 ormAgg0 sess0 rfl

/-- Optional-filter application: the iterator's first stage. -/
def applyFilterOpt (p? : Option (Entity → Bool)) (l : List Entity) : List Entity :=
  match p? with
  | none => l
  | some p => l.filter p

/-- Optional-order application: the iterator's second stage. -/
def applyOrderOpt (o? : Option (Entity → Entity → Bool)) (l : List Entity) :
    List Entity :=
  match o? with
  | none => l
  | some le => sortBy le l

/-- Optional-slice application: the iterator's last stage. -/
def applySliceOpt (k? : Option SliceKey) (l : List Entity) : List Entity :=
  match k? with
  | none => l
  | some k => listSlice k l

/-- C3: the memory iterator applies the compiled filter to the full backing
sequence first, then sorts the filtered sequence, then applies the slice as a
half-open index range last; with slice `[2, 5)` it yields exactly the items at
zero-based positions 2, 3, 4 of the unsliced result, in that order (three
items whenever the unsliced result has at least five). -/
theorem c3_iterator_pipeline :
    (∀ (a : MemAgg) (h : Heap),
      memIterator a h =
        applySliceOpt a.sliceKey (applyOrderOpt a.orderSpec
          (applyFilterOpt a.filterSpec (memGetEntities a h)))) ∧
    (∀ (a : MemAgg) (h : Heap), a.sliceKey = some ⟨2, 5⟩ →
      memIterator a h =
        ((memIterator { a with sliceKey := none } h).drop 2).take 3) ∧
    (∀ (a : MemAgg) (h : Heap) (i : Nat), a.sliceKey = some ⟨2, 5⟩ → i < 3 →
      (memIterator a h)[i]? = (memIterator { a with sliceKey := none } h)[2 + i]?) ∧
    (∀ (a : MemAgg) (h : Heap), a.sliceKey = some ⟨2, 5⟩ →
      5 ≤ (memIterator { a with sliceKey := none } h).length →
      (memIterator a h).length = 3) := by
  have hpipe : ∀ (a : MemAgg) (h : Heap),
      memIterator a h =
        applySliceOpt a.sliceKey (applyOrderOpt a.orderSpec
          (applyFilterOpt a.filterSpec (memGetEntities a h))) := fun a h => rfl
  have hslice : ∀ (a : MemAgg) (h : Heap), a.sliceKey = some ⟨2, 5⟩ →
      memIterator a h =
        ((memIterator { a with sliceKey := none } h).drop 2).take 3 := by
    intro a h hk
    have h2 : memIterator { a with sliceKey := none } h =
        applyOrderOpt a.orderSpec (applyFilterOpt a.filterSpec (memGetEntities a h)) :=
      rfl
    rw [hpipe a h, hk, h2]
    rfl
  refine ⟨hpipe, hslice, fun a h i hk hi => ?_, fun a h hk h5 => ?_⟩
  · rw [hslice a h hk]
    rw [List.getElem?_take]
    simp [hi, List.getElem?_drop]
  · rw [hslice a h hk]
    simp [List.length_take, List.length_drop]
    omega

/-- Three further witness entities. -/
def entD : Entity := ⟨0, true, true, some 4, some "s4", 3⟩

def entE : Entity := ⟨0, true, true, some 5, some "s5", 4⟩

def entF : Entity := ⟨0, true, true, some 6, some "s6", 5⟩

/-- A heap whose list object 0 holds six entities in a known order. -/
def heap6 : Heap :=
  ⟨fun r => if r = 0 then [entA, entB, entC, entD, entE, entF] else [], 1⟩

/-- The witness aggregate with slice `[2, 5)`. -/
def aggSl : MemAgg := ⟨0, none, none, none, some ⟨2, 5⟩, 0⟩

theorem c3_iterator_pipeline_witness :
    memIterator aggSl heap6 = [entC, entD, entE] ∧
      memIterator { aggSl with sliceKey := none } heap6 =
        [entA, entB, entC, entD, entE, entF] ∧
      memIterator aggSl heap6 =
        ((memIterator { aggSl with sliceKey := none } heap6).drop 2).take 3 :=
  ⟨by decide, by decide, (c3_iterator_pipeline.2.1 aggSl heap6 rfl)⟩

/-- A fresh valid witness entity with an unused id and slug. -/
def entG : Entity := ⟨0, true, true, some 7, some "s7", 6⟩

/-- The heap after appending `entG` to list object 0 of `heap0`. -/
def heapG : Heap := heap0.write 0 [entA, entB, entC, entG]

/-- C4 counterexample: on a memory aggregate with slice `[0, 1)` set, adding a
valid new entity succeeds and appends it to the backing store, yet `count()`
does not increase — `count()` measures the sliced iterator output, so the
"increasing count() by exactly 1" clause fails for aggregates with a slice
(or with a filter the new entity does not satisfy). -/
theorem c4_add_count_counterexample :
    memAdd aggS entG heap0 = .ok heapG ∧
      memCount aggS heap0 = 1 ∧
      memCount aggS heapG = 1 ∧
      memCount aggS heapG ≠ memCount aggS heap0 + 1 := by
  exact ⟨rfl, by decide, by decide, by decide⟩

/-- C4 amended: memory `add(entity)` raises a validation error exactly when
the entity's class is not the aggregate's bound entity class, or it lacks an
`id` or `slug` attribute, or it has a non-None id together with a None slug,
or it has a non-None id and its id or slug equals that of an already stored
entity. Otherwise `add` appends the entity to the backing store (never
overwriting), and `count()` increases by exactly 1 whenever no slice is set
and the entity satisfies the filter specification (vacuously when none is
set). -/
theorem c4_add_validation_amended :
    (∀ (a : MemAgg) (e : Entity) (h : Heap),
      (∃ msg, memAdd a e h = .error msg) ↔
        (e.cls ≠ a.entityClass ∨ e.hasIdA = false ∨ e.hasSlugA = false ∨
          (e.id ≠ none ∧ e.slug = none) ∨
          (e.id ≠ none ∧ memCheckExisting a e h = true))) ∧
    (∀ (a : MemAgg) (e : Entity) (h h' : Heap), memAdd a e h = .ok h' →
      memGetEntities a h' = memGetEntities a h ++ [e]) ∧
    (∀ (a : MemAgg) (e : Entity) (h h' : Heap), memAdd a e h = .ok h' →
      a.sliceKey = none →
      (a.filterSpec = none ∨ ∃ p, a.filterSpec = some p ∧ p e = true) →
      memCount a h' = memCount a h + 1) := by
  have happ : ∀ (a : MemAgg) (e : Entity) (h h' : Heap), memAdd a e h = .ok h' →
      memGetEntities a h' = memGetEntities a h ++ [e] := by
    intro a e h h' hk
    have heq := memAdd_ok_heap a e h h' hk
    subst heq
    rw [memGetEntities_target, Heap.mem_write_self]
  refine ⟨?_, happ, ?_⟩
  · intro a e h
    unfold memAdd
    by_cases h1 : e.cls = a.entityClass
    · by_cases h2 : e.hasIdA
      · by_cases h3 : e.hasSlugA
        · cases hid : e.id with
          | none => simp [h1, h2, h3, hid]
          | some v =>
              by_cases h4 : e.slug = none
              · simp [h1, h2, h3, hid, h4]
              · by_cases h5 : memCheckExisting a e h
                · simp [h1, h2, h3, hid, h4, h5]
                · simp [h1, h2, h3, hid, h4, h5]
        · simp [h1, h2, h3]
      · simp [h1, h2]
    · simp [h1]
  · intro a e h h' hk hs hf
    have he := happ a e h h' hk
    unfold memCount memIterator
    rw [he]
    simp only [hs]
    rcases hf with hf | ⟨p, hp, hpe⟩
    · rw [hf]
      cases ho : a.orderSpec <;> simp [length_sortBy]
    · rw [hp]
      cases ho : a.orderSpec <;>
        simp [length_sortBy, List.filter_append, hpe]

/-- An entity with a non-None id but a None slug. -/
def entNoSlug : Entity := ⟨0, true, true, some 9, none, 0⟩

theorem c4_add_validation_amended_witness :
    memCount agg0 heapG = memCount agg0 heap0 + 1 ∧
      ∃ msg, memAdd agg0 entNoSlug heap0 = .error msg :=
  ⟨c4_add_validation_amended.2.2 agg0 entG heap0 heapG rfl rfl (Or.inl rfl),
   (c4_add_validation_amended.1 agg0 entNoSlug heap0).mpr
     (Or.inr (Or.inr (Or.inr (Or.inl ⟨by decide, rfl⟩))))⟩

/-- The witness ORM aggregate constructed in search mode with no filter. -/
def ormAggSearch : OrmAgg := ⟨0, none, none, none, none, true⟩

/-- C5, evaluated at the failing input: with search mode active and no filter
specification, `count()` returns 0 and performs no backend query, and
`iterator()` performs no backend query either — but its generator body
executes a bare `yield`, so it yields the single value `None` instead of an
empty sequence. -/
theorem c5_search_mode_shortcircuit :
    ormCount ormAggSearch sess0 = (0, []) ∧
      (ormIterator ormAggSearch sess0).1 = [none] ∧
      (ormIterator ormAggSearch sess0).1.length = 1 ∧
      (ormIterator ormAggSearch sess0).1 ≠ [] ∧
      DbOp.query ∉ (ormCount ormAggSearch sess0).2 ∧
      DbOp.query ∉ (ormIterator ormAggSearch sess0).2 :=
  ⟨rfl, rfl, rfl, by decide, by decide, by decide⟩

theorem memClone_target (a : MemAgg) (h : Heap) :
    memTargetRef (memClone a h).1 = memTargetRef a := by
  cases hr : a.relationship <;>
    simp [memClone, memCreate, Heap.alloc, memTargetRef, hr]

/-- The relationship used in the clone counterexample: children stored in
list object 5. -/
def relR : Relationship := ⟨5, fun _ => true⟩

/-- A relationship-scoped memory aggregate. -/
def aggR : MemAgg := ⟨0, some relR, none, none, none, 0⟩

/-- A heap of empty list objects with references 0–9 in use. -/
def heapR : Heap := ⟨fun _ => [], 10⟩

/-- The heap after adding `entG` through the clone of `aggR`: the shared
children list object 5 now holds `entG`. -/
def heapR2 : Heap := (memClone aggR heapR).2.write 5 [entG]

/-- C9 counterexample: for a relationship-scoped memory aggregate, the clone
copies the relationship by reference, so an entity added via the clone lands
in the shared children list and IS visible through the original's backing
list and `get_by_id` — contradicting the claim that a relationship-scoped add
via the clone is not visible through the original. -/
theorem c9_relationship_clone_counterexample :
    aggR.relationship.isSome = true ∧
      memAdd (memClone aggR heapR).1 entG (memClone aggR heapR).2 = .ok heapR2 ∧
      memGetEntities aggR heapR2 = [entG] ∧
      memGetById aggR heapR2 (some 7) = .ok (some entG) :=
  ⟨rfl, rfl, rfl, rfl⟩

/-- C9 amended: a memory-aggregate clone carries over filter, order, slice,
relationship and entity class; without a relationship it shares the backing
entity list by reference, and in every case (shared private list, or shared
relationship children list) an entity added via the clone is visible through
the original, and vice versa. -/
theorem c9_clone_sharing_amended :
    (∀ (a : MemAgg) (h : Heap),
      (memClone a h).1.filterSpec = a.filterSpec ∧
      (memClone a h).1.orderSpec = a.orderSpec ∧
      (memClone a h).1.sliceKey = a.sliceKey ∧
      (memClone a h).1.relationship = a.relationship ∧
      (memClone a h).1.entityClass = a.entityClass) ∧
    (∀ (a : MemAgg) (h : Heap), a.relationship = none →
      (memClone a h).1.entitiesRef = a.entitiesRef) ∧
    (∀ (a : MemAgg) (h : Heap) (e : Entity) (h2 : Heap),
      memAdd (memClone a h).1 e (memClone a h).2 = .ok h2 →
      e ∈ memGetEntities a h2) ∧
    (∀ (a : MemAgg) (h : Heap) (e : Entity) (h2 : Heap),
      memAdd a e (memClone a h).2 = .ok h2 →
      e ∈ memGetEntities (memClone a h).1 h2) := by
  refine ⟨?_, ?_, ?_, ?_⟩
  · intro a h
    cases hr : a.relationship <;>
      simp [memClone, memCreate, Heap.alloc, hr]
  · intro a h hr
    simp [memClone, memCreate, Heap.alloc, hr]
  · intro a h e h2 hk
    have heq := memAdd_ok_heap _ _ _ _ hk
    subst heq
    rw [memGetEntities_target, ← memClone_target a h, Heap.mem_write_self]
    exact List.mem_append_right _ (List.mem_singleton_self e)
  · intro a h e h2 hk
    have heq := memAdd_ok_heap _ _ _ _ hk
    subst heq
    rw [memGetEntities_target, memClone_target a h, Heap.mem_write_self]
    exact List.mem_append_right _ (List.mem_singleton_self e)

/-- The heap after adding `entG` through the clone of the relationship-free
aggregate `agg0`: the shared list object 0 gains `entG`. -/
def heapShared : Heap := (memClone agg0 heap0).2.write 0 [entA, entB, entC, entG]

theorem c9_clone_sharing_amended_witness :
    (memClone agg0 heap0).1.entitiesRef = agg0.entitiesRef ∧
      memAdd (memClone agg0 heap0).1 entG (memClone agg0 heap0).2 = .ok heapShared ∧
      entG ∈ memGetEntities agg0 heapShared :=
  ⟨c9_clone_sharing_amended.2.1 agg0 heap0 rfl, rfl,
   c9_clone_sharing_amended.2.2.1 agg0 heap0 entG heapShared rfl⟩
